import Mathlib

set_option linter.unusedSectionVars false

/-!
Shallow embedding of the `LruCache` class of `src/index.ts` (lru-cache-x).

The JS `Map<Key, CacheEntry>` is modelled as an association list in insertion
order: the head is the least-recently-used entry, the last element the most
recently used one, exactly the iteration order of a JS `Map`.  Timestamps are
natural numbers (`Date.now()` becomes an explicit `now : Nat` parameter taken
once per public operation).  JS `number` arguments that may be fractional
(`capacity`, TTL values) are modelled as `Rat`, with `Number.isInteger x`
becoming `x.den = 1`.  A thrown `Error` becomes an explicit error component;
calls to `LruCacheEvents.emitEviction` are recorded as an event list
`List (K × V)` returned by each operation.
-/

namespace LruCacheX

/-- Model of `CacheEntry<Value>`: stored value plus absolute expiry timestamp
(`expiresAt: number | null`). -/
structure CacheEntry (V : Type) where
  value : V
  expiresAt : Option Nat
  deriving Repr, DecidableEq

/-- The mutable state of an `LruCache` instance: the readonly configuration
fields (`capacity`, `defaultTtl`, `#trackStats`) together with the `Map`
contents (in insertion order) and the statistics counters. -/
structure CacheState (K V : Type) where
  capacity : Nat
  defaultTtl : Option Nat
  trackStats : Bool
  cache : List (K × CacheEntry V)
  hits : Nat
  misses : Nat
  evictions : Nat
  deriving Repr, DecidableEq

/-- The `itemTtlMs?: number | null` argument of `set`: absent (`undefined`),
the explicit no-expiry sentinel (`null`), or a JS number (possibly
non-integral, hence `Rat`). -/
inductive TtlArg where
  | omitted
  | explicitNull
  | num (q : Rat)
  deriving Repr, DecidableEq

/-- The `ttl?: number | null` field of `LruCacheOptions`. -/
inductive TtlOpt where
  | undefinedOpt
  | nullOpt
  | numOpt (q : Rat)
  deriving Repr, DecidableEq

variable {K V : Type} [DecidableEq K]

/-- Model of `Map.prototype.get`: first binding of the key in the association list. -/
def mapFind (m : List (K × CacheEntry V)) (k : K) : Option (CacheEntry V) :=
  (m.find? (fun p => decide (p.1 = k))).map Prod.snd

/-- Model of `Map.prototype.has` (also the `boolean` result of `Map.prototype.delete`). -/
def mapHas (m : List (K × CacheEntry V)) (k : K) : Bool :=
  (mapFind m k).isSome

/-- Model of `Map.prototype.delete`: remove every binding of the key (there is at most
one in a real `Map`). -/
def mapDelete (m : List (K × CacheEntry V)) (k : K) : List (K × CacheEntry V) :=
  m.filter (fun p => decide (p.1 ≠ k))

/-- The `LruCache` constructor (`src/index.ts` lines 37-53).  `capacity` is a
JS number; options are the default TTL and the stats flag.  Throws become
`Except.error` with the thrown message. -/
def mkLruCache (K V : Type) (capacity : Rat) (ttl : TtlOpt) (trackStats : Bool) :
    Except String (CacheState K V) :=
  if ¬capacity.den = 1 ∨ capacity ≤ 0 then
    Except.error "Capacity must be a positive integer"
  else if (match ttl with
           | TtlOpt.numOpt q => !decide (q.den = 1) || decide (q ≤ 0)
           | _ => false) then
    Except.error "TTL must be a positive integer if specified"
  else
    Except.ok
      { capacity := capacity.num.toNat
        defaultTtl := match ttl with
          | TtlOpt.numOpt q => some q.num.toNat
          | _ => none
        trackStats := trackStats
        cache := []
        hits := 0
        misses := 0
        evictions := 0 }

/-- Model of `#isExpired` (lines 61-66): strictly later than `expiresAt`. -/
def isExpired (now : Nat) : Option (CacheEntry V) → Bool
  | none => false
  | some e =>
    match e.expiresAt with
    | none => false
    | some t => decide (t < now)

/-- Bump a statistics counter if `#trackStats` is set. -/
def bumpStat (track : Bool) (n : Nat) : Nat :=
  if track then n + 1 else n

/-- Model of `#deleteAndNotifyIfKeyExpired` (lines 74-85).  Returns the boolean result,
the updated state, and the `emitEviction` calls made. -/
def deleteAndNotifyIfKeyExpired (now : Nat) (k : K) (s : CacheState K V) :
    Bool × CacheState K V × List (K × V) :=
  let entry := mapFind s.cache k
  if isExpired now entry then
    match entry with
    | some e =>
      (true,
       { s with cache := mapDelete s.cache k,
                evictions := bumpStat s.trackStats s.evictions },
       [(k, e.value)])
    | none => (true, s, [])
  else
    (false, s, [])

/-- Model of `setMostRecentlyUsed` (lines 94-97): delete then insert at the tail end. -/
def setMostRecentlyUsed (k : K) (v : V) (expiresAt : Option Nat) (s : CacheState K V) :
    CacheState K V :=
  { s with cache := mapDelete s.cache k ++ [(k, { value := v, expiresAt := expiresAt })] }

/-- Model of `get` (lines 104-122): result, updated state, and emitted events. -/
def get (now : Nat) (k : K) (s : CacheState K V) :
    Option V × CacheState K V × List (K × V) :=
  let r := deleteAndNotifyIfKeyExpired now k s
  if r.1 then
    (none, { r.2.1 with misses := bumpStat r.2.1.trackStats r.2.1.misses }, r.2.2)
  else
    match mapFind r.2.1.cache k with
    | none =>
      (none, { r.2.1 with misses := bumpStat r.2.1.trackStats r.2.1.misses }, r.2.2)
    | some e =>
      (some e.value,
       { setMostRecentlyUsed k e.value e.expiresAt r.2.1 with
           hits := bumpStat r.2.1.trackStats r.2.1.hits },
       r.2.2)

/-- Model of `peek` (lines 129-136). -/
def peek (now : Nat) (k : K) (s : CacheState K V) :
    Option V × CacheState K V × List (K × V) :=
  let r := deleteAndNotifyIfKeyExpired now k s
  if r.1 then
    (none, r.2.1, r.2.2)
  else
    ((mapFind r.2.1.cache k).map CacheEntry.value, r.2.1, r.2.2)

/-- Model of `has` (lines 203-208). -/
def has (now : Nat) (k : K) (s : CacheState K V) :
    Bool × CacheState K V × List (K × V) :=
  let r := deleteAndNotifyIfKeyExpired now k s
  if r.1 then
    (false, r.2.1, r.2.2)
  else
    (mapHas r.2.1.cache k, r.2.1, r.2.2)

/-- Model of `evictOldest` (lines 183-196): remove the first entry of the map,
notify, and bump the eviction counter. -/
def evictOldest (s : CacheState K V) : Option K × CacheState K V × List (K × V) :=
  match s.cache with
  | [] => (none, s, [])
  | (k, e) :: _ =>
    (some k,
     { s with cache := mapDelete s.cache k,
              evictions := bumpStat s.trackStats s.evictions },
     [(k, e.value)])

/-- The `else if (this.defaultTtl && this.defaultTtl > 0)` fallback of `set`:
the expiry timestamp derived from the default TTL, if any. -/
def resolveDefaultTtl (now : Nat) : Option Nat → Option Nat
  | some d => if 0 < d then some (now + d) else none
  | none => none

/-- The opening statement of `set` (lines 147-149): the `has` probe with its
expiry side effect, followed by the capacity eviction when the key is new and
the map is full.  Returns the `has` result, the state, and emitted events. -/
def setEvictionPhase (now : Nat) (k : K) (s : CacheState K V) :
    Bool × CacheState K V × List (K × V) :=
  let h := has now k s
  if !h.1 && decide (h.2.1.capacity ≤ h.2.1.cache.length) then
    let ev := evictOldest h.2.1
    (h.1, ev.2.1, h.2.2 ++ ev.2.2)
  else
    (h.1, h.2.1, h.2.2)

/-- Model of `set` (lines 146-167).  First component: the thrown error message, if the
call threw; second: the state of the instance when the call returns or
throws (JS mutations made before a throw persist); third: emitted events. -/
def set (now : Nat) (k : K) (v : V) (itemTtlMs : TtlArg) (s : CacheState K V) :
    Option String × CacheState K V × List (K × V) :=
  let r := setEvictionPhase now k s
  match itemTtlMs with
  | TtlArg.explicitNull => (none, setMostRecentlyUsed k v none r.2.1, r.2.2)
  | TtlArg.num q =>
    if 0 < q then
      if ¬q.den = 1 then
        (some "Item TTL must be a positive integer if specified", r.2.1, r.2.2)
      else
        (none, setMostRecentlyUsed k v (some (now + q.num.toNat)) r.2.1, r.2.2)
    else
      (none, setMostRecentlyUsed k v (resolveDefaultTtl now s.defaultTtl) r.2.1, r.2.2)
  | TtlArg.omitted =>
    (none, setMostRecentlyUsed k v (resolveDefaultTtl now s.defaultTtl) r.2.1, r.2.2)

/-- Model of `delete` (lines 174-176): `Map.prototype.delete` result, no events. -/
def delete (k : K) (s : CacheState K V) : Bool × CacheState K V × List (K × V) :=
  (mapHas s.cache k, { s with cache := mapDelete s.cache k }, [])

/-- Model of `size` (lines 214-216). -/
def size (s : CacheState K V) : Nat :=
  s.cache.length

/-- Model of `clear` (lines 238-241): empty the map, touch nothing else, no events. -/
def clear (s : CacheState K V) : CacheState K V × List (K × V) :=
  ({ s with cache := [] }, [])

/-- The loop body of `purgeExpired` over the snapshotted key list. -/
def purgeLoop (now : Nat) : List K → CacheState K V → Nat × CacheState K V × List (K × V)
  | [], s => (0, s, [])
  | k :: ks, s =>
    let r := deleteAndNotifyIfKeyExpired now k s
    let rest := purgeLoop now ks r.2.1
    ((if r.1 then 1 + rest.1 else rest.1), rest.2.1, r.2.2 ++ rest.2.2)

/-- Model of `purgeExpired` (lines 321-333): iterate over a snapshot of the keys. -/
def purgeExpired (now : Nat) (s : CacheState K V) : Nat × CacheState K V × List (K × V) :=
  purgeLoop now (s.cache.map Prod.fst) s

/-!
Effectful model of the same operations, for the eviction-notification sink.
The configured `onEvict` callback is a function that may throw
(`K → V → Except E Unit`); `LruCacheEvents.emitEviction` wraps its invocation
in `try`/`catch`.  Each public operation is re-translated in the `Except E`
monad so that an uncaught sink failure would abort the operation; the
InvalidArgument throw of `set` stays a returned value, as in the pure model.
-/

/-- Model of `LruCacheEvents.emitEviction` (lines 373-382): invoke the sink, if one is
configured, catching anything it throws. -/
def emitEviction {K V E : Type} (onEvict : Option (K → V → Except E Unit))
    (k : K) (v : V) : Except E Unit :=
  match onEvict with
  | none => Except.ok ()
  | some f =>
    match f k v with
    | Except.ok _ => Except.ok ()
    | Except.error _ => Except.ok ()

/-- Effectful `#deleteAndNotifyIfKeyExpired`. -/
def deleteAndNotifyIfKeyExpiredE {E : Type} (onEvict : Option (K → V → Except E Unit))
    (now : Nat) (k : K) (s : CacheState K V) : Except E (Bool × CacheState K V) := do
  let entry := mapFind s.cache k
  if isExpired now entry then
    match entry with
    | some e => do
      let s1 := { s with cache := mapDelete s.cache k }
      emitEviction onEvict k e.value
      Except.ok (true, { s1 with evictions := bumpStat s1.trackStats s1.evictions })
    | none => Except.ok (true, s)
  else
    Except.ok (false, s)

/-- Effectful `get`. -/
def getE {E : Type} (onEvict : Option (K → V → Except E Unit)) (now : Nat) (k : K)
    (s : CacheState K V) : Except E (Option V × CacheState K V) := do
  let r ← deleteAndNotifyIfKeyExpiredE onEvict now k s
  if r.1 then
    Except.ok (none, { r.2 with misses := bumpStat r.2.trackStats r.2.misses })
  else
    match mapFind r.2.cache k with
    | none =>
      Except.ok (none, { r.2 with misses := bumpStat r.2.trackStats r.2.misses })
    | some e =>
      Except.ok (some e.value,
        { setMostRecentlyUsed k e.value e.expiresAt r.2 with
            hits := bumpStat r.2.trackStats r.2.hits })

/-- Effectful `peek`. -/
def peekE {E : Type} (onEvict : Option (K → V → Except E Unit)) (now : Nat) (k : K)
    (s : CacheState K V) : Except E (Option V × CacheState K V) := do
  let r ← deleteAndNotifyIfKeyExpiredE onEvict now k s
  if r.1 then
    Except.ok (none, r.2)
  else
    Except.ok ((mapFind r.2.cache k).map CacheEntry.value, r.2)

/-- Effectful `has`. -/
def hasE {E : Type} (onEvict : Option (K → V → Except E Unit)) (now : Nat) (k : K)
    (s : CacheState K V) : Except E (Bool × CacheState K V) := do
  let r ← deleteAndNotifyIfKeyExpiredE onEvict now k s
  if r.1 then
    Except.ok (false, r.2)
  else
    Except.ok (mapHas r.2.cache k, r.2)

/-- Effectful `evictOldest`. -/
def evictOldestE {E : Type} (onEvict : Option (K → V → Except E Unit))
    (s : CacheState K V) : Except E (Option K × CacheState K V) :=
  match s.cache with
  | [] => Except.ok (none, s)
  | (k, e) :: _ => do
    let s1 := { s with cache := mapDelete s.cache k }
    emitEviction onEvict k e.value
    Except.ok (some k, { s1 with evictions := bumpStat s1.trackStats s1.evictions })

/-- Effectful `set`. -/
def setE {E : Type} (onEvict : Option (K → V → Except E Unit)) (now : Nat) (k : K)
    (v : V) (itemTtlMs : TtlArg) (s : CacheState K V) :
    Except E (Option String × CacheState K V) := do
  let h ← hasE onEvict now k s
  let s2 ←
    if !h.1 && decide (h.2.capacity ≤ h.2.cache.length) then do
      let ev ← evictOldestE onEvict h.2
      Except.ok ev.2
    else
      Except.ok h.2
  match itemTtlMs with
  | TtlArg.explicitNull => Except.ok (none, setMostRecentlyUsed k v none s2)
  | TtlArg.num q =>
    if 0 < q then
      if ¬q.den = 1 then
        Except.ok (some "Item TTL must be a positive integer if specified", s2)
      else
        Except.ok (none, setMostRecentlyUsed k v (some (now + q.num.toNat)) s2)
    else
      Except.ok (none, setMostRecentlyUsed k v (resolveDefaultTtl now s.defaultTtl) s2)
  | TtlArg.omitted =>
    Except.ok (none, setMostRecentlyUsed k v (resolveDefaultTtl now s.defaultTtl) s2)

/-- Effectful loop body of `purgeExpired`. -/
def purgeLoopE {E : Type} (onEvict : Option (K → V → Except E Unit)) (now : Nat) :
    List K → CacheState K V → Except E (Nat × CacheState K V)
  | [], s => Except.ok (0, s)
  | k :: ks, s => do
    let r ← deleteAndNotifyIfKeyExpiredE onEvict now k s
    let rest ← purgeLoopE onEvict now ks r.2
    Except.ok ((if r.1 then 1 + rest.1 else rest.1), rest.2)

/-- Effectful `purgeExpired`. -/
def purgeExpiredE {E : Type} (onEvict : Option (K → V → Except E Unit)) (now : Nat)
    (s : CacheState K V) : Except E (Nat × CacheState K V) :=
  purgeLoopE onEvict now (s.cache.map Prod.fst) s

/-- One public operation on the cache, with its clock reading. -/
inductive CacheOp (K V : Type) where
  | doSet (now : Nat) (k : K) (v : V) (t : TtlArg)
  | doGet (now : Nat) (k : K)
  | doPeek (now : Nat) (k : K)
  | doHas (now : Nat) (k : K)
  | doDelete (k : K)
  | doClear
  | doPurge (now : Nat)

/-- The state component of running one operation. -/
def applyOp (s : CacheState K V) : CacheOp K V → CacheState K V
  | CacheOp.doSet now k v t => (set now k v t s).2.1
  | CacheOp.doGet now k => (get now k s).2.1
  | CacheOp.doPeek now k => (peek now k s).2.1
  | CacheOp.doHas now k => (has now k s).2.1
  | CacheOp.doDelete k => (delete k s).2.1
  | CacheOp.doClear => (clear s).1
  | CacheOp.doPurge now => (purgeExpired now s).2.1

/-- Run a sequence of operations. -/
def runOps (ops : List (CacheOp K V)) (s : CacheState K V) : CacheState K V :=
  ops.foldl applyOp s

/-- The invariant tying a state to its construction capacity `C`: the
capacity field is `C`, the map never exceeds it, and — as for a real JS
`Map` — keys are distinct. -/
def Inv (C : Nat) (s : CacheState K V) : Prop :=
  s.capacity = C ∧ s.cache.length ≤ C ∧ (s.cache.map Prod.fst).Nodup

/-- Example state: a fresh capacity-1 cache (no default TTL, no stats). -/
def cap1 : CacheState Nat Nat :=
  { capacity := 1, defaultTtl := none, trackStats := false, cache := [],
    hits := 0, misses := 0, evictions := 0 }

/-- Example state: capacity 1, stats tracked, one live entry mapping 0 to 10. -/
def oneLive : CacheState Nat Nat :=
  { capacity := 1, defaultTtl := none, trackStats := true,
    cache := [(0, { value := 10, expiresAt := none })],
    hits := 0, misses := 0, evictions := 0 }

/-- Example state: capacity 2, stats tracked, an entry mapping 0 to 10 that
expires at time 5 (oldest), and a never-expiring entry mapping 1 to 11. -/
def expLive : CacheState Nat Nat :=
  { capacity := 2, defaultTtl := none, trackStats := true,
    cache := [(0, { value := 10, expiresAt := some 5 }),
              (1, { value := 11, expiresAt := none })],
    hits := 0, misses := 0, evictions := 0 }

/-! Basic lemmas about the association-list model of `Map`. -/

theorem mapFind_cons (a : K) (e : CacheEntry V) (tl : List (K × CacheEntry V)) (k : K) :
    mapFind ((a, e) :: tl) k = if a = k then some e else mapFind tl k := by
  by_cases h : a = k <;> simp [mapFind, h]

theorem mapDelete_cons (a : K) (e : CacheEntry V) (tl : List (K × CacheEntry V)) (k : K) :
    mapDelete ((a, e) :: tl) k =
      if a = k then mapDelete tl k else (a, e) :: mapDelete tl k := by
  by_cases h : a = k <;> simp [mapDelete, List.filter_cons, h]

theorem mapFind_eq_none_iff (m : List (K × CacheEntry V)) (k : K) :
    mapFind m k = none ↔ ∀ p ∈ m, p.1 ≠ k := by
  simp [mapFind, List.find?_eq_none]

theorem mapHas_eq_false (m : List (K × CacheEntry V)) (k : K) :
    mapHas m k = false ↔ mapFind m k = none := by
  unfold mapHas
  cases mapFind m k <;> simp

theorem mapHas_eq_true (m : List (K × CacheEntry V)) (k : K) :
    mapHas m k = true ↔ ∃ e, mapFind m k = some e := by
  unfold mapHas
  cases mapFind m k <;> simp

theorem mapDelete_eq_self (m : List (K × CacheEntry V)) (k : K)
    (h : mapHas m k = false) : mapDelete m k = m := by
  rw [mapHas_eq_false, mapFind_eq_none_iff] at h
  exact List.filter_eq_self.mpr (fun p hp => by simpa using h p hp)

theorem mapDelete_length_le (m : List (K × CacheEntry V)) (k : K) :
    (mapDelete m k).length ≤ m.length :=
  List.length_filter_le _ m

theorem mapDelete_length_lt (m : List (K × CacheEntry V)) (k : K) (e : CacheEntry V)
    (h : mapFind m k = some e) : (mapDelete m k).length < m.length := by
  induction m with
  | nil => simp [mapFind] at h
  | cons p tl ih =>
    obtain ⟨a, ev⟩ := p
    rw [mapFind_cons] at h
    rw [mapDelete_cons]
    by_cases hak : a = k
    · simpa [hak] using Nat.lt_succ_of_le (mapDelete_length_le tl k)
    · simp only [hak, if_false] at h ⊢
      simpa using ih h

theorem mapDelete_append (m₁ m₂ : List (K × CacheEntry V)) (k : K) :
    mapDelete (m₁ ++ m₂) k = mapDelete m₁ k ++ mapDelete m₂ k := by
  simp [mapDelete, List.filter_append]

theorem mapDelete_idem (m : List (K × CacheEntry V)) (k : K) :
    mapDelete (mapDelete m k) k = mapDelete m k := by
  unfold mapDelete
  exact List.filter_eq_self.mpr (fun a ha => (List.mem_filter.mp ha).2)

theorem mapFind_append_left (m₁ m₂ : List (K × CacheEntry V)) (k : K) (e : CacheEntry V)
    (h : mapFind m₁ k = some e) : mapFind (m₁ ++ m₂) k = some e := by
  unfold mapFind at h ⊢
  rw [List.find?_append]
  cases hf : List.find? (fun p => decide (p.1 = k)) m₁ <;> simp [hf] at h ⊢
  · exact h

theorem mapFind_append_right (m₁ m₂ : List (K × CacheEntry V)) (k : K)
    (h : mapFind m₁ k = none) : mapFind (m₁ ++ m₂) k = mapFind m₂ k := by
  unfold mapFind at h ⊢
  rw [List.find?_append]
  cases hf : List.find? (fun p => decide (p.1 = k)) m₁ <;> simp [hf] at h ⊢

theorem mapDelete_sublist (m : List (K × CacheEntry V)) (k : K) :
    (mapDelete m k).Sublist m :=
  List.filter_sublist m

theorem keys_mapDelete_sublist (m : List (K × CacheEntry V)) (k : K) :
    ((mapDelete m k).map Prod.fst).Sublist (m.map Prod.fst) :=
  (mapDelete_sublist m k).map Prod.fst

theorem not_mem_keys_mapDelete (m : List (K × CacheEntry V)) (k : K) :
    k ∉ (mapDelete m k).map Prod.fst := by
  intro h
  rcases List.mem_map.mp h with ⟨p, hp, hpk⟩
  have h2 := (List.mem_filter.mp hp).2
  simp at h2
  exact h2 hpk

theorem nodupKeys_mapDelete (m : List (K × CacheEntry V)) (k : K)
    (h : (m.map Prod.fst).Nodup) : ((mapDelete m k).map Prod.fst).Nodup :=
  (keys_mapDelete_sublist m k).nodup h

theorem mapFind_eq_none_of_not_mem_keys (m : List (K × CacheEntry V)) (k : K)
    (h : k ∉ m.map Prod.fst) : mapFind m k = none := by
  rw [mapFind_eq_none_iff]
  intro p hp hpk
  exact h (List.mem_map.mpr ⟨p, hp, hpk⟩)

theorem nodupKeys_setMostRecentlyUsed (k : K) (v : V) (ex : Option Nat)
    (s : CacheState K V) (h : (s.cache.map Prod.fst).Nodup) :
    (((setMostRecentlyUsed k v ex s).cache).map Prod.fst).Nodup := by
  unfold setMostRecentlyUsed
  simp only [List.map_append, List.map_cons, List.map_nil]
  rw [List.nodup_append]
  refine ⟨nodupKeys_mapDelete _ _ h, List.nodup_singleton k, ?_⟩
  intro a ha hb
  simp at hb
  exact not_mem_keys_mapDelete s.cache k (hb ▸ ha)

/-! Characterizations of `#deleteAndNotifyIfKeyExpired` and the read paths. -/

theorem dAN_not_expired (now : Nat) (k : K) (s : CacheState K V)
    (h : isExpired now (mapFind s.cache k) = false) :
    deleteAndNotifyIfKeyExpired now k s = (false, s, []) := by
  simp [deleteAndNotifyIfKeyExpired, h]

theorem dAN_expired (now : Nat) (k : K) (s : CacheState K V) (e : CacheEntry V)
    (hf : mapFind s.cache k = some e) (hx : isExpired now (some e) = true) :
    deleteAndNotifyIfKeyExpired now k s =
      (true,
       { s with cache := mapDelete s.cache k,
                evictions := bumpStat s.trackStats s.evictions },
       [(k, e.value)]) := by
  simp [deleteAndNotifyIfKeyExpired, hf, hx]

theorem isExpired_none (now : Nat) :
    isExpired now (none : Option (CacheEntry V)) = false := rfl

theorem get_expired (now : Nat) (k : K) (s : CacheState K V) (e : CacheEntry V)
    (hf : mapFind s.cache k = some e) (hx : isExpired now (some e) = true) :
    get now k s =
      (none,
       { s with cache := mapDelete s.cache k,
                evictions := bumpStat s.trackStats s.evictions,
                misses := bumpStat s.trackStats s.misses },
       [(k, e.value)]) := by
  simp [get, dAN_expired now k s e hf hx]

theorem get_absent (now : Nat) (k : K) (s : CacheState K V)
    (hf : mapFind s.cache k = none) :
    get now k s = (none, { s with misses := bumpStat s.trackStats s.misses }, []) := by
  have h0 : isExpired now (mapFind s.cache k) = false := by rw [hf]; rfl
  simp [get, dAN_not_expired now k s h0, hf]

theorem get_live (now : Nat) (k : K) (s : CacheState K V) (e : CacheEntry V)
    (hf : mapFind s.cache k = some e) (hx : isExpired now (some e) = false) :
    get now k s =
      (some e.value,
       { s with cache := mapDelete s.cache k ++ [(k, e)],
                hits := bumpStat s.trackStats s.hits },
       []) := by
  have h0 : isExpired now (mapFind s.cache k) = false := by rw [hf]; exact hx
  simp [get, dAN_not_expired now k s h0, hf, setMostRecentlyUsed]

theorem peek_expired (now : Nat) (k : K) (s : CacheState K V) (e : CacheEntry V)
    (hf : mapFind s.cache k = some e) (hx : isExpired now (some e) = true) :
    peek now k s =
      (none,
       { s with cache := mapDelete s.cache k,
                evictions := bumpStat s.trackStats s.evictions },
       [(k, e.value)]) := by
  simp [peek, dAN_expired now k s e hf hx]

theorem peek_not_expired (now : Nat) (k : K) (s : CacheState K V)
    (h : isExpired now (mapFind s.cache k) = false) :
    peek now k s = ((mapFind s.cache k).map CacheEntry.value, s, []) := by
  simp [peek, dAN_not_expired now k s h]

theorem has_expired (now : Nat) (k : K) (s : CacheState K V) (e : CacheEntry V)
    (hf : mapFind s.cache k = some e) (hx : isExpired now (some e) = true) :
    has now k s =
      (false,
       { s with cache := mapDelete s.cache k,
                evictions := bumpStat s.trackStats s.evictions },
       [(k, e.value)]) := by
  simp [has, dAN_expired now k s e hf hx]

theorem has_not_expired (now : Nat) (k : K) (s : CacheState K V)
    (h : isExpired now (mapFind s.cache k) = false) :
    has now k s = (mapHas s.cache k, s, []) := by
  simp [has, dAN_not_expired now k s h]

theorem evictOldest_eq (s : CacheState K V) (a : K) (e : CacheEntry V)
    (tl : List (K × CacheEntry V)) (h : s.cache = (a, e) :: tl) :
    evictOldest s =
      (some a,
       { s with cache := mapDelete s.cache a,
                evictions := bumpStat s.trackStats s.evictions },
       [(a, e.value)]) := by
  unfold evictOldest
  split
  · simp_all
  · rename_i k' e' tl' heq
    rw [h] at heq
    cases heq
    rfl

theorem evictOldest_nil (s : CacheState K V) (h : s.cache = []) :
    evictOldest s = (none, s, []) := by
  unfold evictOldest
  split
  · rfl
  · rename_i k' e' tl' heq
    rw [h] at heq
    cases heq

theorem phase_absent_full (now : Nat) (k : K) (s : CacheState K V) (a : K)
    (e0 : CacheEntry V) (tl : List (K × CacheEntry V))
    (hf : mapFind s.cache k = none) (hsz : s.capacity ≤ s.cache.length)
    (hs : s.cache = (a, e0) :: tl) :
    setEvictionPhase now k s =
      (false,
       { s with cache := mapDelete s.cache a,
                evictions := bumpStat s.trackStats s.evictions },
       [(a, e0.value)]) := by
  have h0 : isExpired now (mapFind s.cache k) = false := by rw [hf]; rfl
  have hh : mapHas s.cache k = false := (mapHas_eq_false _ _).mpr hf
  simp [setEvictionPhase, has_not_expired now k s h0, hh, hsz,
        evictOldest_eq s a e0 tl hs]

theorem phase_absent_room (now : Nat) (k : K) (s : CacheState K V)
    (hf : mapFind s.cache k = none) (hsz : s.cache.length < s.capacity) :
    setEvictionPhase now k s = (false, s, []) := by
  have h0 : isExpired now (mapFind s.cache k) = false := by rw [hf]; rfl
  have hh : mapHas s.cache k = false := (mapHas_eq_false _ _).mpr hf
  have hc : ¬s.capacity ≤ s.cache.length := Nat.not_le.mpr hsz
  simp [setEvictionPhase, has_not_expired now k s h0, hh, hc]

theorem phase_live (now : Nat) (k : K) (s : CacheState K V) (e : CacheEntry V)
    (hf : mapFind s.cache k = some e) (hx : isExpired now (some e) = false) :
    setEvictionPhase now k s = (true, s, []) := by
  have h0 : isExpired now (mapFind s.cache k) = false := by rw [hf]; exact hx
  have hh : mapHas s.cache k = true := (mapHas_eq_true _ _).mpr ⟨e, hf⟩
  simp [setEvictionPhase, has_not_expired now k s h0, hh]

theorem phase_expired (now : Nat) (k : K) (s : CacheState K V) (e : CacheEntry V)
    (hf : mapFind s.cache k = some e) (hx : isExpired now (some e) = true)
    (hsz : (mapDelete s.cache k).length < s.capacity) :
    setEvictionPhase now k s =
      (false,
       { s with cache := mapDelete s.cache k,
                evictions := bumpStat s.trackStats s.evictions },
       [(k, e.value)]) := by
  have hc : ¬s.capacity ≤ (mapDelete s.cache k).length := Nat.not_le.mpr hsz
  simp [setEvictionPhase, has_expired now k s e hf hx, hc]

theorem set_eq_of_phase (now : Nat) (k : K) (v : V) (t : TtlArg) (s : CacheState K V)
    (b : Bool) (s2 : CacheState K V) (ev : List (K × V))
    (hp : setEvictionPhase now k s = (b, s2, ev)) :
    set now k v t s =
      match t with
      | TtlArg.explicitNull => (none, setMostRecentlyUsed k v none s2, ev)
      | TtlArg.num q =>
        if 0 < q then
          if ¬q.den = 1 then
            (some "Item TTL must be a positive integer if specified", s2, ev)
          else
            (none, setMostRecentlyUsed k v (some (now + q.num.toNat)) s2, ev)
        else
          (none, setMostRecentlyUsed k v (resolveDefaultTtl now s.defaultTtl) s2, ev)
      | TtlArg.omitted =>
        (none, setMostRecentlyUsed k v (resolveDefaultTtl now s.defaultTtl) s2, ev) := by
  unfold set
  rw [hp]

/-! Preservation of the invariant by every public operation. -/

theorem Inv_setMRU {C : Nat} (k : K) (v : V) (ex : Option Nat) {s : CacheState K V}
    (h : Inv C s) (hlen : (mapDelete s.cache k).length < C) :
    Inv C (setMostRecentlyUsed k v ex s) := by
  refine ⟨h.1, ?_, nodupKeys_setMostRecentlyUsed k v ex s h.2.2⟩
  simp only [setMostRecentlyUsed, List.length_append, List.length_cons, List.length_nil]
  omega

theorem Inv_dAN (C now : Nat) (k : K) (s : CacheState K V) (h : Inv C s) :
    Inv C (deleteAndNotifyIfKeyExpired now k s).2.1 := by
  cases hx : isExpired now (mapFind s.cache k) with
  | false =>
    rw [dAN_not_expired now k s hx]
    exact h
  | true =>
    cases hfind : mapFind s.cache k with
    | none => rw [hfind, isExpired_none] at hx; simp at hx
    | some e =>
      rw [hfind] at hx
      rw [dAN_expired now k s e hfind hx]
      exact ⟨h.1, Nat.le_trans (mapDelete_length_le _ _) h.2.1,
             nodupKeys_mapDelete _ _ h.2.2⟩

theorem Inv_get (C now : Nat) (k : K) (s : CacheState K V) (h : Inv C s) :
    Inv C (get now k s).2.1 := by
  cases hx : isExpired now (mapFind s.cache k) with
  | true =>
    cases hfind : mapFind s.cache k with
    | none => rw [hfind, isExpired_none] at hx; simp at hx
    | some e =>
      rw [hfind] at hx
      rw [get_expired now k s e hfind hx]
      exact ⟨h.1, Nat.le_trans (mapDelete_length_le _ _) h.2.1,
             nodupKeys_mapDelete _ _ h.2.2⟩
  | false =>
    cases hfind : mapFind s.cache k with
    | none =>
      rw [get_absent now k s hfind]
      exact ⟨h.1, h.2.1, h.2.2⟩
    | some e =>
      rw [hfind] at hx
      rw [get_live now k s e hfind hx]
      have hlt := mapDelete_length_lt s.cache k e hfind
      have h21 := h.2.1
      refine ⟨h.1, ?_, ?_⟩
      · simp only [List.length_append, List.length_cons, List.length_nil]
        omega
      · exact nodupKeys_setMostRecentlyUsed k e.value e.expiresAt s h.2.2

theorem Inv_peek (C now : Nat) (k : K) (s : CacheState K V) (h : Inv C s) :
    Inv C (peek now k s).2.1 := by
  cases hx : isExpired now (mapFind s.cache k) with
  | true =>
    cases hfind : mapFind s.cache k with
    | none => rw [hfind, isExpired_none] at hx; simp at hx
    | some e =>
      rw [hfind] at hx
      rw [peek_expired now k s e hfind hx]
      exact ⟨h.1, Nat.le_trans (mapDelete_length_le _ _) h.2.1,
             nodupKeys_mapDelete _ _ h.2.2⟩
  | false =>
    rw [peek_not_expired now k s hx]
    exact h

theorem Inv_has (C now : Nat) (k : K) (s : CacheState K V) (h : Inv C s) :
    Inv C (has now k s).2.1 := by
  cases hx : isExpired now (mapFind s.cache k) with
  | true =>
    cases hfind : mapFind s.cache k with
    | none => rw [hfind, isExpired_none] at hx; simp at hx
    | some e =>
      rw [hfind] at hx
      rw [has_expired now k s e hfind hx]
      exact ⟨h.1, Nat.le_trans (mapDelete_length_le _ _) h.2.1,
             nodupKeys_mapDelete _ _ h.2.2⟩
  | false =>
    rw [has_not_expired now k s hx]
    exact h

theorem Inv_delete (C : Nat) (k : K) (s : CacheState K V) (h : Inv C s) :
    Inv C (delete k s).2.1 :=
  ⟨h.1, Nat.le_trans (mapDelete_length_le _ _) h.2.1, nodupKeys_mapDelete _ _ h.2.2⟩

theorem Inv_clear (C : Nat) (s : CacheState K V) (h : Inv C s) :
    Inv C (clear s).1 :=
  ⟨h.1, Nat.zero_le C, List.nodup_nil⟩

theorem Inv_purgeLoop (C now : Nat) (ks : List K) :
    ∀ s : CacheState K V, Inv C s → Inv C (purgeLoop now ks s).2.1 := by
  induction ks with
  | nil => intro s h; exact h
  | cons k ks ih =>
    intro s h
    simp only [purgeLoop]
    exact ih _ (Inv_dAN C now k s h)

theorem Inv_purge (C now : Nat) (s : CacheState K V) (h : Inv C s) :
    Inv C (purgeExpired now s).2.1 :=
  Inv_purgeLoop C now _ s h

theorem Inv_phase (C now : Nat) (k : K) (s : CacheState K V) (hC : 0 < C)
    (h : Inv C s) :
    Inv C (setEvictionPhase now k s).2.1 ∧
      (mapDelete (setEvictionPhase now k s).2.1.cache k).length < C := by
  cases hx : isExpired now (mapFind s.cache k) with
  | true =>
    cases hfind : mapFind s.cache k with
    | none => rw [hfind, isExpired_none] at hx; simp at hx
    | some e =>
      rw [hfind] at hx
      have hlt := mapDelete_length_lt s.cache k e hfind
      have hsz : (mapDelete s.cache k).length < s.capacity := by
        have := h.2.1; rw [h.1]; omega
      rw [phase_expired now k s e hfind hx hsz]
      constructor
      · exact ⟨h.1, Nat.le_trans (mapDelete_length_le _ _) h.2.1,
               nodupKeys_mapDelete _ _ h.2.2⟩
      · rw [mapDelete_idem]
        have := h.2.1
        rw [h.1] at hsz
        omega
  | false =>
    cases hfind : mapFind s.cache k with
    | some e =>
      rw [hfind] at hx
      rw [phase_live now k s e hfind hx]
      dsimp only
      refine ⟨h, ?_⟩
      have hlt := mapDelete_length_lt s.cache k e hfind
      have := h.2.1
      omega
    | none =>
      have hnohas : mapHas s.cache k = false := (mapHas_eq_false _ _).mpr hfind
      by_cases hroom : s.cache.length < s.capacity
      · rw [phase_absent_room now k s hfind hroom]
        refine ⟨h, ?_⟩
        rw [mapDelete_eq_self s.cache k hnohas]
        rw [h.1] at hroom
        exact hroom
      · have hfull : s.capacity ≤ s.cache.length := Nat.le_of_not_lt hroom
        cases hc : s.cache with
        | nil =>
          rw [hc] at hfull
          simp at hfull
          rw [h.1] at hfull
          omega
        | cons p tl =>
          obtain ⟨a, e0⟩ := p
          have hfa : mapFind s.cache a = some e0 := by
            rw [hc, mapFind_cons]; simp
          have hlt := mapDelete_length_lt s.cache a e0 hfa
          rw [phase_absent_full now k s a e0 tl hfind hfull hc]
          dsimp only
          have h21 := h.2.1
          constructor
          · exact ⟨h.1, Nat.le_trans (mapDelete_length_le _ _) h.2.1,
                   nodupKeys_mapDelete _ _ h.2.2⟩
          · have hle := mapDelete_length_le (mapDelete s.cache a) k
            rw [h.1] at hfull
            omega

theorem Inv_set (C now : Nat) (k : K) (v : V) (t : TtlArg) (s : CacheState K V)
    (hC : 0 < C) (h : Inv C s) : Inv C (set now k v t s).2.1 := by
  obtain ⟨hs2, hroom⟩ := Inv_phase C now k s hC h
  rw [set_eq_of_phase now k v t s (setEvictionPhase now k s).1
        (setEvictionPhase now k s).2.1 (setEvictionPhase now k s).2.2 rfl]
  cases t with
  | explicitNull => exact Inv_setMRU k v none hs2 hroom
  | omitted => exact Inv_setMRU k v _ hs2 hroom
  | num q =>
    by_cases h1 : 0 < q
    · by_cases h2 : ¬q.den = 1
      · simp only [h1, h2, if_true]
        exact hs2
      · simp only [h1, h2, if_true, if_false]
        exact Inv_setMRU k v _ hs2 hroom
    · simp only [h1, if_false]
      exact Inv_setMRU k v _ hs2 hroom

theorem Inv_applyOp (C : Nat) (hC : 0 < C) (s : CacheState K V) (op : CacheOp K V)
    (h : Inv C s) : Inv C (applyOp s op) := by
  cases op with
  | doSet now k v t => exact Inv_set C now k v t s hC h
  | doGet now k => exact Inv_get C now k s h
  | doPeek now k => exact Inv_peek C now k s h
  | doHas now k => exact Inv_has C now k s h
  | doDelete k => exact Inv_delete C k s h
  | doClear => exact Inv_clear C s h
  | doPurge now => exact Inv_purge C now s h

theorem Inv_runOps (C : Nat) (hC : 0 < C) (ops : List (CacheOp K V)) :
    ∀ s : CacheState K V, Inv C s → Inv C (runOps ops s) := by
  induction ops with
  | nil => intro s h; exact h
  | cons op ops ih =>
    intro s h
    exact ih _ (Inv_applyOp C hC s op h)

theorem mkLruCache_ok (c : Rat) (ttl : TtlOpt) (ts : Bool) (s0 : CacheState K V)
    (h : mkLruCache K V c ttl ts = Except.ok s0) :
    Inv s0.capacity s0 ∧ 0 < s0.capacity := by
  unfold mkLruCache at h
  split at h
  · simp at h
  · split at h
    · simp at h
    · rename_i hcap httl
      cases h
      push_neg at hcap
      have hnum : 0 < c.num := Rat.num_pos.mpr hcap.2
      constructor
      · exact ⟨rfl, by simp, by simp⟩
      · simp only []
        omega

/-- Full characterization of the `purgeExpired` loop.  The map of the state is
`pre ++ rem` where `pre` has already been scanned and survived; the loop runs
over the keys of `rem`. -/
theorem purgeLoop_spec (now : Nat) :
    ∀ (rem pre : List (K × CacheEntry V)) (s : CacheState K V),
      s.cache = pre ++ rem → ((pre ++ rem).map Prod.fst).Nodup →
      purgeLoop now (rem.map Prod.fst) s =
        ((rem.filter (fun p => isExpired now (some p.2))).length,
         { s with
             cache := pre ++ rem.filter (fun p => !isExpired now (some p.2)),
             evictions := s.evictions +
               (if s.trackStats then
                  (rem.filter (fun p => isExpired now (some p.2))).length
                else 0) },
         (rem.filter (fun p => isExpired now (some p.2))).map
           (fun p => (p.1, p.2.value))) := by
  intro rem
  induction rem with
  | nil =>
    intro pre s hc hnd
    rw [List.append_nil] at hc
    simp only [List.map_nil, purgeLoop, List.filter_nil, List.length_nil,
               List.map_nil, List.append_nil]
    rw [← hc]
    simp
  | cons p tl ih =>
    intro pre s hc hnd
    obtain ⟨a, e⟩ := p
    have hamem : a ∉ pre.map Prod.fst ∧ a ∉ tl.map Prod.fst := by
      simp only [List.map_append, List.map_cons, List.nodup_append] at hnd
      refine ⟨fun hmem => hnd.2.2 hmem (by simp), ?_⟩
      have h1 := hnd.2.1
      simp only [List.nodup_cons] at h1
      exact h1.1
    have hpre_none : mapFind pre a = none :=
      mapFind_eq_none_of_not_mem_keys pre a hamem.1
    have htl_none : mapFind tl a = none :=
      mapFind_eq_none_of_not_mem_keys tl a hamem.2
    have hfa : mapFind s.cache a = some e := by
      rw [hc, mapFind_append_right pre _ a hpre_none, mapFind_cons]
      simp
    have hdel : mapDelete s.cache a = pre ++ tl := by
      rw [hc, mapDelete_append,
          mapDelete_eq_self pre a ((mapHas_eq_false _ _).mpr hpre_none),
          mapDelete_cons]
      simp [mapDelete_eq_self tl a ((mapHas_eq_false _ _).mpr htl_none)]
    cases hx : isExpired now (some e) with
    | true =>
      simp only [List.map_cons, purgeLoop]
      rw [dAN_expired now a s e hfa hx]
      dsimp only
      rw [ih pre _ (by exact hdel)
            (by refine List.Sublist.nodup ?_ hnd
                simp only [List.map_append, List.map_cons]
                exact List.Sublist.append_left
                  (List.sublist_cons_self a (tl.map Prod.fst)) (pre.map Prod.fst))]
      cases ht : s.trackStats <;>
        simp [bumpStat, ht, List.filter_cons, hx, Prod.ext_iff] <;>
        omega
    | false =>
      simp only [List.map_cons, purgeLoop]
      rw [dAN_not_expired now a s (by rw [hfa]; exact hx)]
      dsimp only
      rw [ih (pre ++ [(a, e)]) s (by rw [hc]; simp)
            (by simpa using hnd)]
      simp [List.filter_cons, hx, Prod.ext_iff]

theorem purgeExpired_spec (now : Nat) (s : CacheState K V)
    (hnd : (s.cache.map Prod.fst).Nodup) :
    purgeExpired now s =
      ((s.cache.filter (fun p => isExpired now (some p.2))).length,
       { s with
           cache := s.cache.filter (fun p => !isExpired now (some p.2)),
           evictions := s.evictions +
             (if s.trackStats then
                (s.cache.filter (fun p => isExpired now (some p.2))).length
              else 0) },
       (s.cache.filter (fun p => isExpired now (some p.2))).map
         (fun p => (p.1, p.2.value))) := by
  unfold purgeExpired
  rw [purgeLoop_spec now s.cache [] s (by simp) (by simpa using hnd)]
  simp

/-! The effectful model refines the pure one: the sink can never make any
operation fail or change its resulting state. -/

theorem ok_bind {E A B : Type} (a : A) (g : A → Except E B) :
    (Except.ok a : Except E A) >>= g = g a := rfl

theorem emitEviction_ok {K V E : Type} (f : Option (K → V → Except E Unit))
    (k : K) (v : V) : emitEviction f k v = Except.ok () := by
  unfold emitEviction
  cases f with
  | none => rfl
  | some g =>
    dsimp only
    cases g k v <;> rfl

theorem dANE_eq {E : Type} (f : Option (K → V → Except E Unit)) (now : Nat) (k : K)
    (s : CacheState K V) :
    deleteAndNotifyIfKeyExpiredE f now k s =
      Except.ok ((deleteAndNotifyIfKeyExpired now k s).1,
                 (deleteAndNotifyIfKeyExpired now k s).2.1) := by
  unfold deleteAndNotifyIfKeyExpiredE deleteAndNotifyIfKeyExpired
  cases hx : isExpired now (mapFind s.cache k) with
  | false => simp [hx]
  | true =>
    cases hfind : mapFind s.cache k with
    | none => rw [hfind, isExpired_none] at hx; simp at hx
    | some e =>
      rw [hfind] at hx
      simp [hfind, hx, emitEviction_ok, ok_bind]

theorem getE_eq {E : Type} (f : Option (K → V → Except E Unit)) (now : Nat) (k : K)
    (s : CacheState K V) :
    getE f now k s = Except.ok ((get now k s).1, (get now k s).2.1) := by
  unfold getE get
  rw [dANE_eq]
  rw [ok_bind]
  cases hb : (deleteAndNotifyIfKeyExpired now k s).1 with
  | true => simp [hb]
  | false =>
    cases hfind : mapFind (deleteAndNotifyIfKeyExpired now k s).2.1.cache k <;>
      simp [hb, hfind]

theorem peekE_eq {E : Type} (f : Option (K → V → Except E Unit)) (now : Nat) (k : K)
    (s : CacheState K V) :
    peekE f now k s = Except.ok ((peek now k s).1, (peek now k s).2.1) := by
  unfold peekE peek
  rw [dANE_eq]
  rw [ok_bind]
  cases hb : (deleteAndNotifyIfKeyExpired now k s).1 <;> simp [hb]

theorem hasE_eq {E : Type} (f : Option (K → V → Except E Unit)) (now : Nat) (k : K)
    (s : CacheState K V) :
    hasE f now k s = Except.ok ((has now k s).1, (has now k s).2.1) := by
  unfold hasE has
  rw [dANE_eq]
  rw [ok_bind]
  cases hb : (deleteAndNotifyIfKeyExpired now k s).1 <;> simp [hb]

theorem evictOldestE_eq {E : Type} (f : Option (K → V → Except E Unit))
    (s : CacheState K V) :
    evictOldestE f s = Except.ok ((evictOldest s).1, (evictOldest s).2.1) := by
  unfold evictOldestE evictOldest
  cases hc : s.cache with
  | nil => simp [hc]
  | cons p tl =>
    obtain ⟨a, e⟩ := p
    simp [hc, emitEviction_ok, ok_bind]

theorem setE_eq {E : Type} (f : Option (K → V → Except E Unit)) (now : Nat) (k : K)
    (v : V) (t : TtlArg) (s : CacheState K V) :
    setE f now k v t s = Except.ok ((set now k v t s).1, (set now k v t s).2.1) := by
  unfold setE
  rw [hasE_eq, ok_bind]
  by_cases hcond :
      (!(has now k s).1 &&
        decide ((has now k s).2.1.capacity ≤ (has now k s).2.1.cache.length)) = true
  · have hp : setEvictionPhase now k s =
        ((has now k s).1, (evictOldest (has now k s).2.1).2.1,
         (has now k s).2.2 ++ (evictOldest (has now k s).2.1).2.2) := by
      unfold setEvictionPhase
      dsimp only
      rw [hcond]
      simp
    rw [set_eq_of_phase now k v t s _ _ _ hp]
    simp only [hcond, if_true]
    rw [evictOldestE_eq, ok_bind, ok_bind]
    cases t with
    | explicitNull => simp
    | omitted => simp
    | num q =>
      by_cases h1 : 0 < q
      · by_cases h2 : ¬q.den = 1 <;> simp [h1, h2]
      · simp [h1]
  · have hcondf : (!(has now k s).1 &&
        decide ((has now k s).2.1.capacity ≤ (has now k s).2.1.cache.length)) = false :=
      Bool.not_eq_true _ ▸ hcond
    have hp : setEvictionPhase now k s =
        ((has now k s).1, (has now k s).2.1, (has now k s).2.2) := by
      unfold setEvictionPhase
      dsimp only
      rw [hcondf]
      simp
    rw [set_eq_of_phase now k v t s _ _ _ hp]
    simp only [hcondf, if_false]
    rw [ok_bind]
    cases t with
    | explicitNull => simp
    | omitted => simp
    | num q =>
      by_cases h1 : 0 < q
      · by_cases h2 : ¬q.den = 1 <;> simp [h1, h2]
      · simp [h1]

theorem purgeLoopE_eq {E : Type} (f : Option (K → V → Except E Unit)) (now : Nat)
    (ks : List K) :
    ∀ s : CacheState K V,
      purgeLoopE f now ks s =
        Except.ok ((purgeLoop now ks s).1, (purgeLoop now ks s).2.1) := by
  induction ks with
  | nil => intro s; rfl
  | cons k ks ih =>
    intro s
    simp only [purgeLoopE, purgeLoop]
    rw [dANE_eq, ok_bind, ih, ok_bind]

theorem purgeExpiredE_eq {E : Type} (f : Option (K → V → Except E Unit)) (now : Nat)
    (s : CacheState K V) :
    purgeExpiredE f now s =
      Except.ok ((purgeExpired now s).1, (purgeExpired now s).2.1) := by
  unfold purgeExpiredE purgeExpired
  exact purgeLoopE_eq f now _ s

/-! Frame lemmas: which statistics fields each internal step leaves alone. -/

theorem dAN_frame (now : Nat) (k : K) (s : CacheState K V) :
    (deleteAndNotifyIfKeyExpired now k s).2.1.hits = s.hits ∧
    (deleteAndNotifyIfKeyExpired now k s).2.1.misses = s.misses := by
  cases hx : isExpired now (mapFind s.cache k) with
  | false => rw [dAN_not_expired now k s hx]; exact ⟨rfl, rfl⟩
  | true =>
    cases hfind : mapFind s.cache k with
    | none => rw [hfind, isExpired_none] at hx; simp at hx
    | some e =>
      rw [hfind] at hx
      rw [dAN_expired now k s e hfind hx]
      exact ⟨rfl, rfl⟩

theorem has_state (now : Nat) (k : K) (s : CacheState K V) :
    (has now k s).2.1 = (deleteAndNotifyIfKeyExpired now k s).2.1 := by
  unfold has
  cases hb : (deleteAndNotifyIfKeyExpired now k s).1 <;> simp [hb]

theorem evictOldest_frame (s : CacheState K V) :
    (evictOldest s).2.1.hits = s.hits ∧ (evictOldest s).2.1.misses = s.misses := by
  cases hc : s.cache with
  | nil => rw [evictOldest_nil s hc]; exact ⟨rfl, rfl⟩
  | cons p tl =>
    obtain ⟨a, e⟩ := p
    rw [evictOldest_eq s a e tl hc]
    exact ⟨rfl, rfl⟩

theorem phase_frame (now : Nat) (k : K) (s : CacheState K V) :
    (setEvictionPhase now k s).2.1.hits = s.hits ∧
    (setEvictionPhase now k s).2.1.misses = s.misses := by
  unfold setEvictionPhase
  by_cases hcond :
      (!(has now k s).1 &&
        decide ((has now k s).2.1.capacity ≤ (has now k s).2.1.cache.length)) = true
  · dsimp only
    rw [hcond]
    simp only [eq_self_iff_true, if_true]
    constructor
    · calc (evictOldest (has now k s).2.1).2.1.hits
          = (has now k s).2.1.hits := (evictOldest_frame _).1
        _ = (deleteAndNotifyIfKeyExpired now k s).2.1.hits := by
            rw [has_state now k s]
        _ = s.hits := (dAN_frame now k s).1
    · calc (evictOldest (has now k s).2.1).2.1.misses
          = (has now k s).2.1.misses := (evictOldest_frame _).2
        _ = (deleteAndNotifyIfKeyExpired now k s).2.1.misses := by
            rw [has_state now k s]
        _ = s.misses := (dAN_frame now k s).2
  · have hcondf : (!(has now k s).1 &&
        decide ((has now k s).2.1.capacity ≤ (has now k s).2.1.cache.length)) = false :=
      Bool.not_eq_true _ ▸ hcond
    dsimp only
    rw [hcondf]
    simp only [Bool.false_eq_true, if_false]
    constructor
    · calc (has now k s).2.1.hits
          = (deleteAndNotifyIfKeyExpired now k s).2.1.hits := by rw [has_state now k s]
        _ = s.hits := (dAN_frame now k s).1
    · calc (has now k s).2.1.misses
          = (deleteAndNotifyIfKeyExpired now k s).2.1.misses := by rw [has_state now k s]
        _ = s.misses := (dAN_frame now k s).2

/-! Claim theorems. -/

/-- C1: Starting from any freshly constructed cache, after any sequence of
operations (`set`, `get`, `peek`, `has`, `delete`, `clear`, `purgeExpired`)
the size never exceeds the construction capacity; and whenever a `set` of a
key not present in the store happens while the size equals the capacity, the
single pre-existing entry removed is the one at the least-recently-used end
(the head of the recency order): the survivors of the old store are exactly
its tail. -/
theorem c1_size_bound_and_lru_eviction (cap : Rat) (ttl : TtlOpt) (ts : Bool)
    (s0 : CacheState Nat Nat) (h0 : mkLruCache Nat Nat cap ttl ts = Except.ok s0)
    (ops : List (CacheOp Nat Nat)) :
    (runOps ops s0).cache.length ≤ s0.capacity ∧
    (∀ now k v t, mapHas (runOps ops s0).cache k = false →
        (runOps ops s0).cache.length = s0.capacity →
        ∃ hd tl, (runOps ops s0).cache = hd :: tl ∧
          mapDelete (set now k v t (runOps ops s0)).2.1.cache k = tl ∧
          mapHas (set now k v t (runOps ops s0)).2.1.cache hd.1 = false) := by
  obtain ⟨hinv0, hcpos⟩ := mkLruCache_ok cap ttl ts s0 h0
  have hinv := Inv_runOps s0.capacity hcpos ops s0 hinv0
  refine ⟨hinv.2.1, ?_⟩
  intro now k v t hno hlen
  cases hc : (runOps ops s0).cache with
  | nil =>
    rw [hc] at hlen
    simp at hlen
    omega
  | cons hd tl0 =>
    obtain ⟨a, e0⟩ := hd
    have hfind : mapFind (runOps ops s0).cache k = none := (mapHas_eq_false _ _).mp hno
    have hsz : (runOps ops s0).capacity ≤ (runOps ops s0).cache.length := by
      rw [hinv.1, hlen]
    have hp := phase_absent_full now k (runOps ops s0) a e0 tl0 hfind hsz hc
    have hkeys : ∀ p ∈ (runOps ops s0).cache, p.1 ≠ k :=
      (mapFind_eq_none_iff _ _).mp hfind
    have hka : a ≠ k := hkeys (a, e0) (by rw [hc]; exact List.mem_cons_self _ _)
    have hktl : mapHas tl0 k = false := by
      rw [mapHas_eq_false, mapFind_eq_none_iff]
      intro p hp'
      exact hkeys p (by rw [hc]; exact List.mem_cons_of_mem _ hp')
    have hnd := hinv.2.2
    rw [hc] at hnd
    simp only [List.map_cons, List.nodup_cons] at hnd
    have hatl : mapHas tl0 a = false := by
      rw [mapHas_eq_false]
      exact mapFind_eq_none_of_not_mem_keys tl0 a hnd.1
    have hdel_a : mapDelete (runOps ops s0).cache a = tl0 := by
      rw [hc, mapDelete_cons]
      simp [mapDelete_eq_self tl0 a hatl]
    rw [hdel_a] at hp
    refine ⟨(a, e0), tl0, rfl, ?_⟩
    rw [set_eq_of_phase now k v t (runOps ops s0) _ _ _ hp]
    have hdelk : mapDelete tl0 k = tl0 := mapDelete_eq_self tl0 k hktl
    have hins : ∀ ex : Option Nat,
        mapDelete (mapDelete tl0 k ++ [(k, CacheEntry.mk v ex)]) k = tl0 ∧
        mapHas (mapDelete tl0 k ++ [(k, CacheEntry.mk v ex)]) a = false := by
      intro ex
      constructor
      · rw [mapDelete_append, mapDelete_idem, hdelk, mapDelete_cons]
        simp [mapDelete]
      · rw [hdelk, mapHas_eq_false,
            mapFind_append_right tl0 _ a ((mapHas_eq_false _ _).mp hatl),
            mapFind_cons]
        simp [Ne.symm hka, mapFind]
    cases t with
    | explicitNull =>
      exact ⟨(hins none).1, (hins none).2⟩
    | omitted =>
      exact ⟨(hins _).1, (hins _).2⟩
    | num q =>
      dsimp only
      by_cases h1 : 0 < q
      · by_cases h2 : ¬q.den = 1
        · rw [if_pos h1, if_pos h2]
          exact ⟨hdelk, hatl⟩
        · rw [if_pos h1, if_neg h2]
          exact ⟨(hins _).1, (hins _).2⟩
      · rw [if_neg h1]
        exact ⟨(hins _).1, (hins _).2⟩

/-- Witness for C1 at a concrete instance: a capacity-1 cache, one `set`
filling it, then the key facts for a second `set` of a fresh key. -/
theorem c1_witness :
    mkLruCache Nat Nat 1 TtlOpt.undefinedOpt false = Except.ok cap1 ∧
    (runOps [CacheOp.doSet 0 5 50 TtlArg.omitted] cap1).cache.length ≤ cap1.capacity ∧
    (∃ hd tl, (runOps [CacheOp.doSet 0 5 50 TtlArg.omitted] cap1).cache = hd :: tl ∧
      mapDelete (set 0 6 60 TtlArg.omitted
        (runOps [CacheOp.doSet 0 5 50 TtlArg.omitted] cap1)).2.1.cache 6 = tl ∧
      mapHas (set 0 6 60 TtlArg.omitted
        (runOps [CacheOp.doSet 0 5 50 TtlArg.omitted] cap1)).2.1.cache hd.1 = false) := by
  have h := c1_size_bound_and_lru_eviction 1 TtlOpt.undefinedOpt false cap1 (by rfl)
    [CacheOp.doSet 0 5 50 TtlArg.omitted]
  exact ⟨by rfl, h.1, h.2 0 6 60 TtlArg.omitted (by rfl) (by rfl)⟩

/-- C2 (counterexample): the claim says a per-item TTL of zero (supplied, not
the null sentinel, not a positive integer) makes `set` fail; in the code
`set` with TTL `0` succeeds (no error is raised). -/
theorem c2_counterexample :
    ¬(0 : Rat) < 0 ∧ (set 0 0 10 (TtlArg.num 0) cap1).1 = none := by
  exact ⟨by decide, rfl⟩

/-- C2 (amended): a supplied numeric per-item TTL makes `set` fail with the
InvalidArgument error exactly when it is positive and non-integral; zero or
negative numeric TTLs never fail (they silently fall back to the default-TTL
resolution), and the null sentinel and omission never fail. -/
theorem c2_item_ttl_validation (now : Nat) (k : K) (v : V) (q : Rat)
    (s : CacheState K V) :
    ((set now k v (TtlArg.num q) s).1 ≠ none ↔ 0 < q ∧ q.den ≠ 1) ∧
    (set now k v TtlArg.omitted s).1 = none ∧
    (set now k v TtlArg.explicitNull s).1 = none := by
  refine ⟨?_, rfl, rfl⟩
  unfold set
  dsimp only
  by_cases h1 : 0 < q
  · by_cases h2 : q.den = 1 <;> simp [h1, h2]
  · simp [h1]

/-- Witness for the amended C2 statement at a concrete non-integral TTL. -/
theorem c2_witness :
    ((set 0 0 10 (TtlArg.num (mkRat 3 2)) cap1).1 ≠ none ↔
      0 < mkRat 3 2 ∧ (mkRat 3 2).den ≠ 1) ∧
    (set 0 0 10 TtlArg.omitted cap1).1 = none ∧
    (set 0 0 10 TtlArg.explicitNull cap1).1 = none :=
  c2_item_ttl_validation 0 0 10 (mkRat 3 2) cap1

/-- C3 (counterexample): the claim says an InvalidArgument failure happens
before any state mutation and with no eviction notification.  But `set` with
a bad per-item TTL on a full capacity-1 cache first evicts the LRU entry
(firing the notification) and only then throws: the call fails, yet the store
has changed and a notification was emitted. -/
theorem c3_counterexample :
    (set 0 1 7 (TtlArg.num (mkRat 3 2)) oneLive).1 =
      some "Item TTL must be a positive integer if specified" ∧
    (set 0 1 7 (TtlArg.num (mkRat 3 2)) oneLive).2.1.cache ≠ oneLive.cache ∧
    (set 0 1 7 (TtlArg.num (mkRat 3 2)) oneLive).2.2 = [(0, 10)] := by
  exact ⟨rfl, by decide, rfl⟩

/-- C3 (amended): constructor validation failures happen before any cache
state exists.  For `set`, the InvalidArgument failure is raised before the
new entry is inserted and leaves hits and misses untouched, but only after
the existence-check/eviction phase: on failure the state and the emitted
events are exactly those of that phase, whose expiry removal or capacity
eviction (with its notification) may already have happened. -/
theorem c3_fail_after_eviction_phase (now : Nat) (k : K) (v : V) (t : TtlArg)
    (s : CacheState K V) (herr : (set now k v t s).1 ≠ none) :
    (set now k v t s).2.1 = (setEvictionPhase now k s).2.1 ∧
    (set now k v t s).2.2 = (setEvictionPhase now k s).2.2 ∧
    (set now k v t s).2.1.hits = s.hits ∧
    (set now k v t s).2.1.misses = s.misses := by
  rw [set_eq_of_phase now k v t s _ _ _ rfl] at herr ⊢
  cases t with
  | omitted => simp at herr
  | explicitNull => simp at herr
  | num q =>
    dsimp only at herr ⊢
    by_cases h1 : 0 < q
    · by_cases h2 : ¬q.den = 1
      · rw [if_pos h1, if_pos h2]
        exact ⟨rfl, rfl, (phase_frame now k s).1, (phase_frame now k s).2⟩
      · rw [if_pos h1, if_neg h2] at herr
        simp at herr
    · rw [if_neg h1] at herr
      simp at herr

/-- Witness for the amended C3 statement at the counterexample input. -/
theorem c3_witness :
    (set 0 1 7 (TtlArg.num (mkRat 3 2)) oneLive).1 ≠ none ∧
    ((set 0 1 7 (TtlArg.num (mkRat 3 2)) oneLive).2.1 =
       (setEvictionPhase 0 1 oneLive).2.1 ∧
     (set 0 1 7 (TtlArg.num (mkRat 3 2)) oneLive).2.2 =
       (setEvictionPhase 0 1 oneLive).2.2 ∧
     (set 0 1 7 (TtlArg.num (mkRat 3 2)) oneLive).2.1.hits = oneLive.hits ∧
     (set 0 1 7 (TtlArg.num (mkRat 3 2)) oneLive).2.1.misses = oneLive.misses) :=
  ⟨by decide, c3_fail_after_eviction_phase 0 1 7 (TtlArg.num (mkRat 3 2)) oneLive
     (by decide)⟩

/-- C4: `get` on a present, unexpired key returns the stored value, moves it
to the most-recently-used end with value and expiry unchanged, and bumps only
the hit counter (when tracking is on); on an expired or absent key it returns
none and bumps only the miss counter. -/
theorem c4_get_spec (now : Nat) (k : K) (s : CacheState K V) :
    (∀ e, mapFind s.cache k = some e → isExpired now (some e) = false →
      (get now k s).1 = some e.value ∧
      (get now k s).2.1.cache = mapDelete s.cache k ++ [(k, e)] ∧
      (get now k s).2.1.hits = bumpStat s.trackStats s.hits ∧
      (get now k s).2.1.misses = s.misses ∧
      (get now k s).2.1.evictions = s.evictions) ∧
    (isExpired now (mapFind s.cache k) = true ∨ mapFind s.cache k = none →
      (get now k s).1 = none ∧
      (get now k s).2.1.misses = bumpStat s.trackStats s.misses ∧
      (get now k s).2.1.hits = s.hits) := by
  constructor
  · intro e hf hx
    rw [get_live now k s e hf hx]
    exact ⟨rfl, rfl, rfl, rfl, rfl⟩
  · intro h
    cases h with
    | inl hx =>
      cases hfind : mapFind s.cache k with
      | none => rw [hfind, isExpired_none] at hx; simp at hx
      | some e =>
        rw [hfind] at hx
        rw [get_expired now k s e hfind hx]
        exact ⟨rfl, rfl, rfl⟩
    | inr hf =>
      rw [get_absent now k s hf]
      exact ⟨rfl, rfl, rfl⟩

/-- Witness for C4: a live hit on key 1 and an expired miss on key 0. -/
theorem c4_witness :
    ((get 6 1 expLive).1 = some 11 ∧
     (get 6 1 expLive).2.1.cache =
       mapDelete expLive.cache 1 ++ [(1, CacheEntry.mk 11 none)] ∧
     (get 6 1 expLive).2.1.hits = bumpStat expLive.trackStats expLive.hits ∧
     (get 6 1 expLive).2.1.misses = expLive.misses ∧
     (get 6 1 expLive).2.1.evictions = expLive.evictions) ∧
    ((get 6 0 expLive).1 = none ∧
     (get 6 0 expLive).2.1.misses = bumpStat expLive.trackStats expLive.misses ∧
     (get 6 0 expLive).2.1.hits = expLive.hits) :=
  ⟨(c4_get_spec 6 1 expLive).1 (CacheEntry.mk 11 none) (by rfl) (by rfl),
   (c4_get_spec 6 0 expLive).2 (Or.inl (by rfl))⟩

/-- C5: `peek` never reorders surviving entries and never touches hit or miss
counters; when the probed entry is expired it removes it, emits the eviction
notification with its key and value, bumps the eviction counter (when
tracking), and returns none; when the entry is not expired the state is
entirely unchanged and no event fires. -/
theorem c5_peek_spec (now : Nat) (k : K) (s : CacheState K V) :
    (peek now k s).2.1.cache.Sublist s.cache ∧
    (peek now k s).2.1.hits = s.hits ∧
    (peek now k s).2.1.misses = s.misses ∧
    (∀ e, mapFind s.cache k = some e → isExpired now (some e) = true →
      (peek now k s).1 = none ∧
      (peek now k s).2.1.cache = mapDelete s.cache k ∧
      (peek now k s).2.2 = [(k, e.value)] ∧
      (peek now k s).2.1.evictions = bumpStat s.trackStats s.evictions) ∧
    (isExpired now (mapFind s.cache k) = false →
      (peek now k s).2.1 = s ∧ (peek now k s).2.2 = [] ∧
      (peek now k s).1 = (mapFind s.cache k).map CacheEntry.value) := by
  cases hx : isExpired now (mapFind s.cache k) with
  | false =>
    rw [peek_not_expired now k s hx]
    refine ⟨List.Sublist.refl _, rfl, rfl, ?_, fun _ => ⟨rfl, rfl, rfl⟩⟩
    intro e hf hxx
    rw [hf, hxx] at hx
    simp at hx
  | true =>
    cases hfind : mapFind s.cache k with
    | none => rw [hfind, isExpired_none] at hx; simp at hx
    | some e =>
      rw [hfind] at hx
      rw [peek_expired now k s e hfind hx]
      refine ⟨mapDelete_sublist _ _, rfl, rfl, ?_, ?_⟩
      · intro e' hf' hx'
        injection hf' with he
        subst he
        exact ⟨rfl, rfl, rfl, rfl⟩
      · intro hxf
        simp at hxf

/-- Witness for C5 at the expired entry of `expLive`. -/
theorem c5_witness :
    (peek 6 0 expLive).2.1.cache.Sublist expLive.cache ∧
    (peek 6 0 expLive).2.1.hits = expLive.hits ∧
    (peek 6 0 expLive).2.1.misses = expLive.misses ∧
    ((peek 6 0 expLive).1 = none ∧
     (peek 6 0 expLive).2.1.cache = mapDelete expLive.cache 0 ∧
     (peek 6 0 expLive).2.2 = [(0, 10)] ∧
     (peek 6 0 expLive).2.1.evictions =
       bumpStat expLive.trackStats expLive.evictions) := by
  have h := c5_peek_spec 6 0 expLive
  exact ⟨h.1, h.2.1, h.2.2.1, h.2.2.2.1 (CacheEntry.mk 10 (some 5)) (by rfl) (by rfl)⟩

/-- C6: `purgeExpired` removes exactly the entries expired at the purge
instant, returns exactly the number removed, keeps every non-expired entry,
preserves the relative recency order of survivors (the resulting map is the
order-preserving filter of the old one), fires one notification per removal,
and bumps the eviction counter once per removal when tracking is enabled. -/
theorem c6_purge_spec (now : Nat) (s : CacheState K V)
    (hnd : (s.cache.map Prod.fst).Nodup) :
    (purgeExpired now s).2.1.cache =
      s.cache.filter (fun p => !isExpired now (some p.2)) ∧
    (purgeExpired now s).1 =
      (s.cache.filter (fun p => isExpired now (some p.2))).length ∧
    (purgeExpired now s).2.2 =
      (s.cache.filter (fun p => isExpired now (some p.2))).map
        (fun p => (p.1, p.2.value)) ∧
    (purgeExpired now s).2.1.cache.Sublist s.cache ∧
    (purgeExpired now s).2.1.hits = s.hits ∧
    (purgeExpired now s).2.1.misses = s.misses ∧
    (purgeExpired now s).2.1.evictions =
      s.evictions + (if s.trackStats then (purgeExpired now s).1 else 0) := by
  rw [purgeExpired_spec now s hnd]
  exact ⟨rfl, rfl, rfl, List.filter_sublist s.cache, rfl, rfl, rfl⟩

/-- Witness for C6 on `expLive` at time 6: the expired entry is removed, the
live one survives in place. -/
theorem c6_witness :
    (purgeExpired 6 expLive).2.1.cache =
      expLive.cache.filter (fun p => !isExpired 6 (some p.2)) ∧
    (purgeExpired 6 expLive).1 =
      (expLive.cache.filter (fun p => isExpired 6 (some p.2))).length ∧
    (purgeExpired 6 expLive).2.2 =
      (expLive.cache.filter (fun p => isExpired 6 (some p.2))).map
        (fun p => (p.1, p.2.value)) ∧
    (purgeExpired 6 expLive).2.1.cache.Sublist expLive.cache ∧
    (purgeExpired 6 expLive).2.1.hits = expLive.hits ∧
    (purgeExpired 6 expLive).2.1.misses = expLive.misses ∧
    (purgeExpired 6 expLive).2.1.evictions =
      expLive.evictions + (if expLive.trackStats then (purgeExpired 6 expLive).1 else 0) :=
  c6_purge_spec 6 expLive (by decide)

/-- C7: `delete` and `clear` never emit an eviction event; a capacity
eviction emits exactly one event with the removed key and value; an expiry
removal discovered by `get`, `has` or `peek` emits exactly one event with the
removed key and value (and none fires when nothing is expired); and
`purgeExpired` emits exactly one event per removed entry. -/
theorem c7_notifications (now : Nat) (k : K) (s : CacheState K V) :
    (delete k s).2.2 = [] ∧
    (clear s).2 = [] ∧
    (∀ e, mapFind s.cache k = some e → isExpired now (some e) = true →
      (get now k s).2.2 = [(k, e.value)] ∧
      (has now k s).2.2 = [(k, e.value)] ∧
      (peek now k s).2.2 = [(k, e.value)]) ∧
    (isExpired now (mapFind s.cache k) = false →
      (get now k s).2.2 = [] ∧ (has now k s).2.2 = [] ∧ (peek now k s).2.2 = []) ∧
    (∀ a e tl, s.cache = (a, e) :: tl → (evictOldest s).2.2 = [(a, e.value)]) ∧
    ((s.cache.map Prod.fst).Nodup →
      (purgeExpired now s).2.2 =
        (s.cache.filter (fun p => isExpired now (some p.2))).map
          (fun p => (p.1, p.2.value))) := by
  refine ⟨rfl, rfl, ?_, ?_, ?_, ?_⟩
  · intro e hf hx
    rw [get_expired now k s e hf hx, has_expired now k s e hf hx,
        peek_expired now k s e hf hx]
    exact ⟨rfl, rfl, rfl⟩
  · intro hx
    rw [peek_not_expired now k s hx, has_not_expired now k s hx]
    cases hfind : mapFind s.cache k with
    | none =>
      rw [get_absent now k s hfind]
      exact ⟨rfl, rfl, rfl⟩
    | some e =>
      rw [hfind] at hx
      rw [get_live now k s e hfind hx]
      exact ⟨rfl, rfl, rfl⟩
  · intro a e tl hc
    rw [evictOldest_eq s a e tl hc]
  · intro hnd
    rw [purgeExpired_spec now s hnd]

/-- Witness for C7 on `expLive` at time 6 and key 0. -/
theorem c7_witness :
    (delete 0 expLive).2.2 = [] ∧
    (clear expLive).2 = [] ∧
    ((get 6 0 expLive).2.2 = [(0, 10)] ∧
     (has 6 0 expLive).2.2 = [(0, 10)] ∧
     (peek 6 0 expLive).2.2 = [(0, 10)]) ∧
    (evictOldest expLive).2.2 = [(0, 10)] ∧
    (purgeExpired 6 expLive).2.2 =
      (expLive.cache.filter (fun p => isExpired 6 (some p.2))).map
        (fun p => (p.1, p.2.value)) := by
  have h := c7_notifications 6 0 expLive
  exact ⟨h.1, h.2.1, h.2.2.1 (CacheEntry.mk 10 (some 5)) (by rfl) (by rfl),
         h.2.2.2.2.1 0 (CacheEntry.mk 10 (some 5)) [(1, CacheEntry.mk 11 none)] (by rfl),
         h.2.2.2.2.2 (by decide)⟩

/-- C8: with any eviction sink, including one that throws on every call,
every operation that can invoke the sink returns successfully (the failure is
caught at the `emitEviction` boundary and never propagates) and produces
exactly the result and state of the pure model, which is the behavior with a
normally-returning sink. -/
theorem c8_sink_isolation {E : Type} (f : Option (K → V → Except E Unit))
    (now : Nat) (k : K) (v : V) (t : TtlArg) (s : CacheState K V) :
    getE f now k s = Except.ok ((get now k s).1, (get now k s).2.1) ∧
    peekE f now k s = Except.ok ((peek now k s).1, (peek now k s).2.1) ∧
    hasE f now k s = Except.ok ((has now k s).1, (has now k s).2.1) ∧
    setE f now k v t s = Except.ok ((set now k v t s).1, (set now k v t s).2.1) ∧
    purgeExpiredE f now s =
      Except.ok ((purgeExpired now s).1, (purgeExpired now s).2.1) ∧
    emitEviction f k v = Except.ok () :=
  ⟨getE_eq f now k s, peekE_eq f now k s, hasE_eq f now k s,
   setE_eq f now k v t s, purgeExpiredE_eq f now s, emitEviction_ok f k v⟩

/-- C9: when `set` touches a key whose stored entry is expired, the `has`
probe inside `set` first removes that entry, emitting the eviction event with
the old value and bumping the eviction counter (when tracking); no capacity
eviction happens, and on success the new entry is appended at the
most-recently-used end. -/
theorem c9_set_expired_cleanup (now : Nat) (k : K) (v : V) (t : TtlArg)
    (s : CacheState K V) (e : CacheEntry V)
    (hf : mapFind s.cache k = some e) (hx : isExpired now (some e) = true)
    (hlen : s.cache.length ≤ s.capacity) :
    (set now k v t s).2.2 = [(k, e.value)] ∧
    (set now k v t s).2.1.evictions = bumpStat s.trackStats s.evictions ∧
    ((set now k v t s).1 = none →
      ∃ ex, (set now k v t s).2.1.cache =
        mapDelete s.cache k ++ [(k, CacheEntry.mk v ex)]) ∧
    ((set now k v t s).1 ≠ none →
      (set now k v t s).2.1.cache = mapDelete s.cache k) := by
  have hsz : (mapDelete s.cache k).length < s.capacity :=
    Nat.lt_of_lt_of_le (mapDelete_length_lt s.cache k e hf) hlen
  have hp := phase_expired now k s e hf hx hsz
  rw [set_eq_of_phase now k v t s _ _ _ hp]
  cases t with
  | omitted =>
    refine ⟨rfl, rfl, ?_, fun hne => absurd rfl hne⟩
    intro _
    refine ⟨resolveDefaultTtl now s.defaultTtl, ?_⟩
    show mapDelete (mapDelete s.cache k) k ++ _ = _
    rw [mapDelete_idem]
  | explicitNull =>
    refine ⟨rfl, rfl, ?_, fun hne => absurd rfl hne⟩
    intro _
    refine ⟨none, ?_⟩
    show mapDelete (mapDelete s.cache k) k ++ _ = _
    rw [mapDelete_idem]
  | num q =>
    dsimp only
    by_cases h1 : 0 < q
    · by_cases h2 : ¬q.den = 1
      · rw [if_pos h1, if_pos h2]
        refine ⟨rfl, rfl, ?_, fun _ => rfl⟩
        intro hno
        simp at hno
      · rw [if_pos h1, if_neg h2]
        refine ⟨rfl, rfl, ?_, fun hne => absurd rfl hne⟩
        intro _
        refine ⟨some (now + q.num.toNat), ?_⟩
        show mapDelete (mapDelete s.cache k) k ++ _ = _
        rw [mapDelete_idem]
    · rw [if_neg h1]
      refine ⟨rfl, rfl, ?_, fun hne => absurd rfl hne⟩
      intro _
      refine ⟨resolveDefaultTtl now s.defaultTtl, ?_⟩
      show mapDelete (mapDelete s.cache k) k ++ _ = _
      rw [mapDelete_idem]

/-- Witness for C9: `set` over the expired entry of `expLive`. -/
theorem c9_witness :
    (set 6 0 99 TtlArg.omitted expLive).2.2 = [(0, 10)] ∧
    (set 6 0 99 TtlArg.omitted expLive).2.1.evictions =
      bumpStat expLive.trackStats expLive.evictions ∧
    ((set 6 0 99 TtlArg.omitted expLive).1 = none →
      ∃ ex, (set 6 0 99 TtlArg.omitted expLive).2.1.cache =
        mapDelete expLive.cache 0 ++ [(0, CacheEntry.mk 99 ex)]) ∧
    ((set 6 0 99 TtlArg.omitted expLive).1 ≠ none →
      (set 6 0 99 TtlArg.omitted expLive).2.1.cache = mapDelete expLive.cache 0) :=
  c9_set_expired_cleanup 6 0 99 TtlArg.omitted expLive (CacheEntry.mk 10 (some 5))
    (by rfl) (by rfl) (by decide)

/-- C10: `delete` consults no clock and performs no expiry check: it returns
whether the key was physically present, removes it if so (expired or not),
emits no event, and leaves every statistics counter untouched; when the key
is absent it returns false and changes nothing. -/
theorem c10_delete_no_expiry_check (k : K) (s : CacheState K V) :
    (mapHas s.cache k = true →
      (delete k s).1 = true ∧
      (delete k s).2.1.cache = mapDelete s.cache k ∧
      (delete k s).2.2 = [] ∧
      (delete k s).2.1.hits = s.hits ∧
      (delete k s).2.1.misses = s.misses ∧
      (delete k s).2.1.evictions = s.evictions) ∧
    (mapHas s.cache k = false →
      (delete k s).1 = false ∧ (delete k s).2.1 = s ∧ (delete k s).2.2 = []) := by
  constructor
  · intro h
    exact ⟨h, rfl, rfl, rfl, rfl, rfl⟩
  · intro h
    refine ⟨h, ?_, rfl⟩
    show { s with cache := mapDelete s.cache k } = s
    rw [mapDelete_eq_self s.cache k h]

/-- Witness for C10: deleting the (logically expired) key 0 of `expLive`
removes it with no event and untouched counters; deleting an absent key is a
no-op returning false. -/
theorem c10_witness :
    isExpired 6 (mapFind expLive.cache 0) = true ∧
    ((delete 0 expLive).1 = true ∧
     (delete 0 expLive).2.1.cache = mapDelete expLive.cache 0 ∧
     (delete 0 expLive).2.2 = [] ∧
     (delete 0 expLive).2.1.hits = expLive.hits ∧
     (delete 0 expLive).2.1.misses = expLive.misses ∧
     (delete 0 expLive).2.1.evictions = expLive.evictions) ∧
    ((delete 5 expLive).1 = false ∧ (delete 5 expLive).2.1 = expLive ∧
     (delete 5 expLive).2.2 = []) :=
  ⟨by rfl, (c10_delete_no_expiry_check 0 expLive).1 (by rfl),
   (c10_delete_no_expiry_check 5 expLive).2 (by rfl)⟩

end LruCacheX
